import Mathlib

/-!
Verification of the sqlproc pipeline (Bibek99/sqlproc).

This file gives a shallow embedding, in Lean 4, of the core of the
sqlproc code generator: the metadata parser for stored-procedure SQL
files, the schema-migration loader and applier, the declared-type to
Go-type mapping, the generated-statement synthesis, the schema-model
column typing, and the input resolver.  All definitions are translated
from the Go source; where the Go code interacts with the operating
system or a live database, the interaction is made explicit (file
contents are passed as values, and the database's response to executing
a statement is an oracle function).  Go strings are modelled as Lean
`String`, `int64` as `Int` (the only arithmetic performed on versions is
parsing and comparison; the 64-bit overflow bound of `strconv.ParseInt`
is checked explicitly).  String scanning helpers are implemented by
structural recursion over `String.data` so that every definition
evaluates inside the kernel.
-/

/-- Whitespace test used by Go `strings.TrimSpace` and `strings.Fields`
(`unicode.IsSpace` restricted to ASCII, which is all the code ever
feeds it): space, tab, newline, vertical tab, form feed, carriage
return. -/
def goWS (c : Char) : Bool :=
  c = ' ' || c = '\t' || c = '\n' || c = '\x0b' || c = '\x0c' || c = '\r'

/-- Whitespace class of the `\s` escape in Go's regexp package (RE2):
tab, newline, form feed, carriage return, space. -/
def goIsSpace (c : Char) : Bool :=
  c = '\t' || c = '\n' || c = '\x0c' || c = '\r' || c = ' '

/-- Go `strings.TrimSpace`: drop whitespace from both ends. -/
def goTrim (s : String) : String :=
  ((s.data.dropWhile goWS).reverse.dropWhile goWS).reverse.asString

/-- Go `strings.ToLower` on the ASCII text this program handles. -/
def goToLower (s : String) : String :=
  (s.data.map Char.toLower).asString

/-- Go `strings.HasPrefix`. -/
def strStarts (s pre : String) : Bool :=
  pre.data.isPrefixOf s.data

/-- Infix test on character lists, used to model Go `strings.Contains`. -/
def isInfixB (sub : List Char) : List Char → Bool
  | [] => sub.isEmpty
  | c :: rest => sub.isPrefixOf (c :: rest) || isInfixB sub rest

/-- Go `strings.Contains`. -/
def strContainsSub (s sub : String) : Bool :=
  isInfixB sub.data s.data

/-- Go `strings.Join`. -/
def strJoin (sep : String) : List String → String
  | [] => ""
  | [x] => x
  | x :: y :: rest => x ++ sep ++ strJoin sep (y :: rest)

/-- Go `strings.Split` on a single comma, keeping empty fields. -/
def splitCommaAux : List Char → List Char → List String
  | [], cur => [cur.reverse.asString]
  | c :: rest, cur =>
    if c = ',' then cur.reverse.asString :: splitCommaAux rest []
    else splitCommaAux rest (c :: cur)

/-- Go `strings.Split(s, ",")`. -/
def splitComma (s : String) : List String :=
  splitCommaAux s.data []

/-- Go `strings.Fields`: split on runs of whitespace, dropping empties. -/
def goFieldsAux : List Char → List Char → List String
  | [], cur => if cur.isEmpty then [] else [cur.reverse.asString]
  | c :: rest, cur =>
    if goWS c then
      if cur.isEmpty then goFieldsAux rest []
      else cur.reverse.asString :: goFieldsAux rest []
    else goFieldsAux rest (c :: cur)

/-- Go `strings.Fields`. -/
def goFields (s : String) : List String :=
  goFieldsAux s.data []

/-- Go `strings.Trim(s, cutset)`: drop characters of the cutset from
both ends. -/
def trimCut (cut : List Char) (s : String) : String :=
  ((s.data.dropWhile (fun c => cut.contains c)).reverse.dropWhile
    (fun c => cut.contains c)).reverse.asString

/-- normalizeType from parser.go: `strings.TrimSpace(strings.ToLower(dbType))`. -/
def normalizeType (dbType : String) : String :=
  goTrim (goToLower dbType)

/-- Param from parser.go: one procedure parameter (name, declared type). -/
structure Param where
  Name : String
  DBType : String
deriving Repr, DecidableEq

/-- Column from parser.go: one declared result column. -/
structure Column where
  Name : String
  DBType : String
deriving Repr, DecidableEq

/-- Procedure from parser.go.  `Kind` is the Go `ReturnKind` string
(`":one"`, `":many"` or `":exec"`; the zero value is the empty string).
`SQLName` is read by the generator's statement synthesis and defaults to
the empty string. -/
structure Procedure where
  Name : String
  File : String
  SQL : String
  SQLName : String := ""
  Kind : String
  Params : List Param
  Returns : List Column
deriving Repr, DecidableEq

/-- Procedure.Validate from parser.go, returning the error message when
validation fails and `none` on success. -/
def Procedure.Validate (p : Procedure) : Option String :=
  if p.Name = "" then some ("missing -- name metadata")
  else if p.Kind = ":one" ∨ p.Kind = ":many" ∨ p.Kind = ":exec" then
    if p.Kind ≠ ":exec" ∧ p.Returns = [] then
      some ("returning procedure must declare -- returns columns")
    else if p.SQL = "" then some ("procedure SQL body is empty")
    else none
  else some ("unknown return kind " ++ p.Kind)

/-- Case analysis of sqlTypeToGo from generator.go, on the normalized
declared type (the Go switch after `strings.ToLower(strings.TrimSpace(...))`). -/
def sqlTypeToGoNorm (d : String) : String :=
  if strStarts d ("int") then "int32"
  else if strStarts d ("bigint") then "int64"
  else if strStarts d ("smallint") then "int16"
  else if d = "serial" then "int32"
  else if d = "bigserial" then "int64"
  else if strContainsSub d ("char") || strContainsSub d ("text")
      || strContainsSub d ("uuid") then "string"
  else if strStarts d ("bool") then "bool"
  else if strContainsSub d ("double") || strContainsSub d ("float")
      || strContainsSub d ("numeric") || strContainsSub d ("decimal") then "float64"
  else if strContainsSub d ("timestamp") || strContainsSub d ("date") then "time.Time"
  else if strContainsSub d ("json") then "[]byte"
  else "interface\x7b\x7d"

/-- sqlTypeToGo from generator.go: normalize, then map. -/
def sqlTypeToGo (dbType : String) : String :=
  sqlTypeToGoNorm (goToLower (goTrim dbType))

/-- Disjunction of every guard of the sqlTypeToGo switch; a normalized
type on which this is `false` falls through to the dynamic fallback. -/
def recognizedGoType (d : String) : Bool :=
  strStarts d ("int") || strStarts d ("bigint") || strStarts d ("smallint")
  || d = "serial" || d = "bigserial"
  || strContainsSub d ("char") || strContainsSub d ("text") || strContainsSub d ("uuid")
  || strStarts d ("bool")
  || strContainsSub d ("double") || strContainsSub d ("float")
  || strContainsSub d ("numeric") || strContainsSub d ("decimal")
  || strContainsSub d ("timestamp") || strContainsSub d ("date")
  || strContainsSub d ("json")

/-- TableColumn from schema.go: an introspected table column. -/
structure TableColumn where
  Name : String
  DBType : String
  Nullable : Bool
deriving Repr, DecidableEq

/-- goTypeForColumn from schema.go: pointer-wrap the mapped base type for
nullable columns unless the base type is already a slice. -/
def goTypeForColumn (col : TableColumn) : String :=
  let base := sqlTypeToGo col.DBType
  if !col.Nullable then base
  else if strStarts base ("[]") then base
  else "*" ++ base

/-- placeholderList from generator.go: `$1, ..., $n` for the n
parameters of a procedure, empty when there are none. -/
def placeholderList (p : Procedure) : String :=
  if p.Params.length = 0 then ""
  else strJoin (", ") ((List.range p.Params.length).map (fun i => "$" ++ toString (i + 1)))

/-- sqlName from generator.go: the SQL-side routine name, defaulting to
the declared procedure name. -/
def sqlName (p : Procedure) : String :=
  if p.SQLName ≠ "" then p.SQLName else p.Name

/-- callSQL from generator.go: `name(...)` with one positional
placeholder per parameter. -/
def callSQL (p : Procedure) : String :=
  let args := placeholderList p
  if args = "" then sqlName p ++ "()"
  else sqlName p ++ "(" ++ args ++ ")"

/-- selectSQL from generator.go: bare call for `:exec`, select-all for
row-returning procedures. -/
def selectSQL (p : Procedure) : String :=
  if p.Kind = ":exec" then "SELECT " ++ callSQL p
  else "SELECT * FROM " ++ callSQL p

/-- Reference form of the placeholder list, written the way the spec
describes it: the placeholders `$1` through `$n` joined by `", "`. -/
def specPlaceholders : Nat → String
  | 0 => ""
  | n + 1 => if n = 0 then "$1" else specPlaceholders n ++ ", " ++ ("$" ++ toString (n + 1))

/-- Reference form of the synthesized call expression for a routine of
the given name and parameter count. -/
def specCallStmt (name : String) (n : Nat) : String :=
  name ++ "(" ++ specPlaceholders n ++ ")"

/-- Literal-string matcher used by the regex models: consume `pat` from
the front of the input or fail. -/
def litp (pat : String) (cs : List Char) : Option (List Char) :=
  if pat.data.isPrefixOf cs then some (cs.drop pat.data.length) else none

/-- Character class `[A-Za-z0-9_]` of the header patterns. -/
def isIdentChar (c : Char) : Bool :=
  c.isAlphanum || c = '_'

/-- Match of the anchored-at-position form of the name-header pattern
`--\s*name:\s*([A-Za-z0-9_]+)\s*(:(one|many|exec))`; returns the two
captures (identifier, kind string).  Each `\s*` is followed by a
non-whitespace literal and each `[A-Za-z0-9_]+` by a non-identifier
literal, so greedy maximal munch is the unique match. -/
def matchNameAt (cs : List Char) : Option (String × String) := do
  let cs ← litp ("--") cs
  let cs := cs.dropWhile goIsSpace
  let cs ← litp ("name:") cs
  let cs := cs.dropWhile goIsSpace
  let id := cs.takeWhile isIdentChar
  if id.isEmpty then none
  else
    let cs := (cs.drop id.length).dropWhile goIsSpace
    let cs ← litp (":") cs
    if ("one").data.isPrefixOf cs then some (id.asString, ":one")
    else if ("many").data.isPrefixOf cs then some (id.asString, ":many")
    else if ("exec").data.isPrefixOf cs then some (id.asString, ":exec")
    else none

/-- Match of the anchored-at-position form of the param-header pattern
`--\s*param:\s*([A-Za-z0-9_]+)\s+(.+)`; returns (identifier, raw type
capture).  The trailing `\s+(.+)` needs one backtracking case: when
everything after the identifier is whitespace, the greedy `\s+` gives
one character back to `.+`. -/
def matchParamAt (cs : List Char) : Option (String × String) := do
  let cs ← litp ("--") cs
  let cs := cs.dropWhile goIsSpace
  let cs ← litp ("param:") cs
  let cs := cs.dropWhile goIsSpace
  let id := cs.takeWhile isIdentChar
  if id.isEmpty then none
  else
    let rest := cs.drop id.length
    let ws := rest.takeWhile goIsSpace
    let tail := rest.drop ws.length
    if ws.isEmpty then none
    else if !tail.isEmpty then some (id.asString, tail.asString)
    else if ws.length ≥ 2 then
      some (id.asString, (ws.drop (ws.length - 1)).asString)
    else none

/-- Match of the anchored-at-position form of the returns-header pattern
`--\s*returns:\s*(.+)`; returns the raw column-list capture.  As above,
when only whitespace follows the colon the greedy `\s*` gives one
character back to `.+`. -/
def matchReturnsAt (cs : List Char) : Option String := do
  let cs ← litp ("--") cs
  let cs := cs.dropWhile goIsSpace
  let cs ← litp ("returns:") cs
  let ws := cs.takeWhile goIsSpace
  let tail := cs.drop ws.length
  if !tail.isEmpty then some tail.asString
  else if ws.length ≥ 1 then some (ws.drop (ws.length - 1)).asString
  else none

/-- Leftmost-match search: Go `FindStringSubmatch` tries the pattern at
each start position from the left and returns the first success. -/
def scanFirst {α : Type} (f : List Char → Option α) : List Char → Option α
  | [] => f []
  | c :: cs =>
    match f (c :: cs) with
    | some r => some r
    | none => scanFirst f cs

/-- namePattern.FindStringSubmatch on one line, reduced to its captures. -/
def matchNameLine (line : String) : Option (String × String) :=
  scanFirst matchNameAt line.data

/-- paramPattern.FindStringSubmatch on one line, reduced to its captures. -/
def matchParamLine (line : String) : Option (String × String) :=
  scanFirst matchParamAt line.data

/-- returnsPattern.FindStringSubmatch on one line, reduced to its capture. -/
def matchReturnsLine (line : String) : Option String :=
  scanFirst matchReturnsAt line.data

/-- Parser.parseColumns from parser.go: comma-separated `name type...`
entries; entries that trim to nothing or have fewer than two fields are
skipped. -/
def parseColumns (def_ : String) : List Column :=
  (splitComma def_).flatMap (fun part =>
    let part := goTrim part
    if part = "" then []
    else
      match goFields part with
      | n :: t :: ts => [⟨n, normalizeType (strJoin (" ") (t :: ts))⟩]
      | _ => [])

/-- One step of the ParseFile line loop: try the name, param and returns
patterns in that order; otherwise accumulate the line as SQL body unless
its trimmed form starts with `--`. -/
def parseStep (acc : Procedure × List String) (line : String) : Procedure × List String :=
  let (proc, sqlLines) := acc
  match matchNameLine line with
  | some (n, k) => ({ proc with Name := n, Kind := k }, sqlLines)
  | none =>
    match matchParamLine line with
    | some (n, t) =>
      ({ proc with Params := proc.Params ++ [⟨n, normalizeType t⟩] }, sqlLines)
    | none =>
      match matchReturnsLine line with
      | some d => ({ proc with Returns := proc.Returns ++ parseColumns d }, sqlLines)
      | none =>
        if strStarts (goTrim line) ("--") then (proc, sqlLines)
        else (proc, sqlLines ++ [line])

/-- The scanning loop of Parser.ParseFile, over the file's lines (the Go
code reads them through `bufio.Scanner`): fold the line loop starting
from the zero-valued record, then join and trim the accumulated SQL
body. -/
def parseAccumulate (path : String) (lines : List String) : Procedure :=
  let res := lines.foldl parseStep (Procedure.mk "" path "" "" "" [] [], [])
  { res.1 with SQL := goTrim (strJoin ("\n") res.2) }

/-- Parser.ParseFile from parser.go: scan, then validate. -/
def ParseFile (path : String) (lines : List String) : Except String Procedure :=
  match (parseAccumulate path lines).Validate with
  | some e => Except.error ("invalid procedure " ++ path ++ ": " ++ e)
  | none => Except.ok (parseAccumulate path lines)

/-- Reference aggregation of the declared parameters, line by line in
declaration order; a line claimed by the name pattern contributes
nothing (the loop takes the branches in that priority order). -/
def declaredParams (lines : List String) : List Param :=
  lines.flatMap (fun l =>
    match matchNameLine l with
    | some _ => []
    | none =>
      match matchParamLine l with
      | some (n, t) => [⟨n, normalizeType t⟩]
      | none => [])

/-- Reference aggregation of the declared result columns, line by line
in declaration order. -/
def declaredReturns (lines : List String) : List Column :=
  lines.flatMap (fun l =>
    match matchNameLine l with
    | some _ => []
    | none =>
      match matchParamLine l with
      | some _ => []
      | none =>
        match matchReturnsLine l with
        | some d => parseColumns d
        | none => [])

/-- Test for a body line: claimed by no header pattern, and its trimmed
form does not start with `--`. -/
def isBodyLine (l : String) : Bool :=
  (matchNameLine l).isNone && (matchParamLine l).isNone && (matchReturnsLine l).isNone
    && !(strStarts (goTrim l) ("--"))

/-- Reference selection of the body lines: lines claimed by no header
pattern whose trimmed form does not start with `--`. -/
def bodyLines (lines : List String) : List String :=
  lines.filter isBodyLine

/-- Reference reading of the name header: the captures of the last line
the name pattern matches (later occurrences overwrite earlier ones). -/
def lastNameHeader (lines : List String) : Option (String × String) :=
  (lines.filterMap matchNameLine).getLast?

/-- Body of a unit as the claim under scrutiny words it: only the
non-comment, non-blank lines are accumulated, then the join is
trimmed. -/
def claimBody (lines : List String) : String :=
  goTrim (strJoin ("\n") ((bodyLines lines).filter (fun l => goTrim l ≠ "")))

/-- Reference per-entry reading of a `returns:` list entry: a column
exactly when the entry has at least two whitespace-separated fields. -/
def entryColumn (part : String) : Option Column :=
  match goFields (goTrim part) with
  | n :: t :: ts => some ⟨n, normalizeType (strJoin (" ") (t :: ts))⟩
  | _ => none

/-- SchemaMigration from migrate.go. -/
structure SchemaMigration where
  Version : Int
  Name : String
  File : String
  SQL : String
deriving Repr, DecidableEq

/-- A schema-migration input file: its path and its contents (the Go
code reads the contents with `os.ReadFile`). -/
structure MigFile where
  path : String
  content : String
deriving Repr, DecidableEq

/-- Go `filepath.Base`: the last element of the path, after dropping
trailing slashes; `.` for the empty path and `/` for all-slash paths. -/
def baseName (p : String) : String :=
  if p = "" then "."
  else
    let q := p.data.reverse.dropWhile (fun c => c = '/')
    if q.isEmpty then "/"
    else (q.takeWhile (fun c => c ≠ '/')).reverse.asString

/-- Character class `[A-Za-z0-9_-]` of the migration filename pattern. -/
def isMigNameChar (c : Char) : Bool :=
  c.isAlphanum || c = '_' || c = '-'

/-- Match of the anchored migration filename pattern
`^(\d+)[-_]?([A-Za-z0-9_-]*)\.sql$` from migrate.go; returns the digit
capture and the description capture.  Greedy maximal munch is the
unique match shape: digits cannot begin the separator or `.sql`, and the
description class cannot contain `.`. -/
def migFilenameMatch (base : String) : Option (String × String) :=
  let cs := base.data
  let ds := cs.takeWhile Char.isDigit
  if ds.isEmpty then none
  else
    let cs := cs.drop ds.length
    let cs := match cs with
      | c :: rest => if c = '-' || c = '_' then rest else c :: rest
      | [] => []
    let desc := cs.takeWhile isMigNameChar
    let rest := cs.drop desc.length
    if rest = ('.' :: 's' :: 'q' :: 'l' :: []) then some (ds.asString, desc.asString)
    else none

/-- Numeric value of a digit string. -/
def digitsToNat (ds : List Char) : Nat :=
  ds.foldl (fun acc c => acc * 10 + (c.toNat - ('0').toNat)) 0

/-- parseSchemaMigration from migrate.go: decode the filename into
(version, name), reject non-positive versions and empty bodies.  The
overflow bound of `strconv.ParseInt(..., 10, 64)` is checked
explicitly. -/
def parseSchemaMigration (f : MigFile) : Except String SchemaMigration :=
  let base := baseName f.path
  match migFilenameMatch base with
  | none =>
    Except.error ("invalid migration filename " ++ base ++ " (expected NN_description.sql)")
  | some (digits, desc) =>
    let v := digitsToNat digits.data
    if v > 2 ^ 63 - 1 then Except.error ("parse migration version from " ++ base)
    else if v = 0 then Except.error ("migration version must be positive in " ++ base)
    else
      let name0 := trimCut ('-' :: '_' :: ' ' :: []) desc
      let name := if name0 = "" then "migration_" ++ toString v else name0
      let sqlText := goTrim f.content
      if sqlText = "" then Except.error ("migration " ++ f.path ++ " is empty")
      else Except.ok ⟨(v : Int), name, f.path, sqlText⟩

/-- Error message of the duplicate-version branch of
LoadSchemaMigrations. -/
def dupMsg (v : Int) (existing file : String) : String :=
  "duplicate schema migration version " ++ toString v ++ " (" ++ existing ++ " and " ++ file ++ ")"

/-- The loading loop of LoadSchemaMigrations: parse each file, reject a
version already claimed by an earlier file (the `seen` association list
plays the Go map), and accumulate the migrations in input order. -/
def loadLoop (seen : List (Int × String)) (acc : List SchemaMigration) :
    List MigFile → Except String (List SchemaMigration)
  | [] => Except.ok acc
  | f :: rest =>
    match parseSchemaMigration f with
    | Except.error e => Except.error e
    | Except.ok m =>
      match seen.lookup m.Version with
      | some existing => Except.error (dupMsg m.Version existing f.path)
      | none => loadLoop ((m.Version, f.path) :: seen) (acc ++ [m]) rest

/-- Ordering used by the final sort of LoadSchemaMigrations:
`(version, name)` lexicographic. -/
def migLess (a b : SchemaMigration) : Bool :=
  if a.Version = b.Version then decide (a.Name < b.Name) else decide (a.Version < b.Version)

/-- Insertion step of the sort. -/
def insertMig (m : SchemaMigration) : List SchemaMigration → List SchemaMigration
  | [] => [m]
  | x :: xs => if migLess m x then m :: x :: xs else x :: insertMig m xs

/-- The `sort.Slice` call of LoadSchemaMigrations, realized as an
insertion sort with the same comparison (versions are unique by the
time the sort runs, so the order is determined). -/
def sortMigrations (l : List SchemaMigration) : List SchemaMigration :=
  l.foldr insertMig []

/-- LoadSchemaMigrations from migrate.go. -/
def LoadSchemaMigrations (files : List MigFile) : Except String (List SchemaMigration) :=
  if files.isEmpty then Except.error ("no schema migration files provided")
  else (loadLoop [] [] files).map sortMigrations

/-- Version a file's name claims, for files that parse successfully. -/
def migVer (f : MigFile) : Int :=
  match parseSchemaMigration f with
  | Except.ok m => m.Version
  | Except.error _ => 0

/-- State of the migration ledger table
(`sqlproc_schema_migrations`): the inserted `(version, name)` rows, in
insertion order.  `ensureTable` is create-if-absent and never
destructive, so the ledger is simply always present in the model. -/
structure DBState where
  ledger : List (Int × String)
deriving Repr, DecidableEq

/-- Membership of a version in the ledger, as the Go code reads it
(`SELECT version FROM ...` into a set). -/
def ledgerHas (st : DBState) (v : Int) : Bool :=
  (st.ledger.map Prod.fst).contains v

/-- SchemaMigrator.appliedVersions: the set of already-applied versions,
read from the ledger. -/
def appliedVersions (st : DBState) : Int → Bool :=
  fun v => ledgerHas st v

/-- SchemaMigrator.applyMigration from migrate.go.  `execOk` is the
database's response to executing a migration body inside the
transaction, `insertOk` its response to the ledger insert.  The
transaction commits only when both succeed; any failure rolls back, so
the function either returns the committed state (body executed and
ledger row appended together) or an error with the state unchanged. -/
def applyMigration (execOk : String → Bool) (insertOk : Int → String → Bool)
    (st : DBState) (m : SchemaMigration) : Except String DBState :=
  if execOk m.SQL then
    if insertOk m.Version m.Name then
      Except.ok ⟨st.ledger ++ [(m.Version, m.Name)]⟩
    else Except.error ("insert ledger row for " ++ m.File)
  else Except.error ("apply migration " ++ m.File)

/-- The migration loop of SchemaMigrator.Migrate: skip applied versions,
otherwise apply; the first failure stops the loop with the state rolled
back to before the failing transaction.  Besides the final state and
error, the model also returns the list of migrations whose bodies were
submitted to the database (each one a `BeginTx`/`ExecContext`), so that
"executes zero migration bodies" is expressible. -/
def migrateLoop (execOk : String → Bool) (insertOk : Int → String → Bool)
    (applied : Int → Bool) (st : DBState) :
    List SchemaMigration → DBState × List SchemaMigration × Option String
  | [] => (st, [], none)
  | m :: rest =>
    if applied m.Version then migrateLoop execOk insertOk applied st rest
    else
      match applyMigration execOk insertOk st m with
      | Except.ok st1 =>
        let r := migrateLoop execOk insertOk applied st1 rest
        (r.1, m :: r.2.1, r.2.2)
      | Except.error e => (st, [m], some e)

/-- SchemaMigrator.Migrate from migrate.go: short-circuit on the empty
list, ensure the ledger table (create-if-absent, a no-op in the model),
read the applied versions once, then run the loop. -/
def SchemaMigrator.Migrate (execOk : String → Bool) (insertOk : Int → String → Bool)
    (st : DBState) (migs : List SchemaMigration) :
    DBState × List SchemaMigration × Option String :=
  if migs.isEmpty then (st, [], none)
  else migrateLoop execOk insertOk (appliedVersions st) st migs

/-- A file-system node, for the input resolver: a file with contents, or
a directory whose children are listed in the lexical order
`filepath.Walk` visits them. -/
inductive FSNode where
  | file (content : String)
  | dir (children : List (String × FSNode))
deriving Repr

/-- Go `filepath.Ext`: the suffix of the final path element starting at
its last dot, empty when the element has no dot. -/
def extOf (p : String) : String :=
  let seg := p.data.reverse.takeWhile (fun c => c ≠ '/')
  if seg.contains '.' then ('.' :: (seg.takeWhile (fun c => c ≠ '.')).reverse).asString
  else ""

mutual

/-- The `filepath.Walk` body of CollectSQLFiles: collect every file
under the node whose extension case-folds to `.sql`. -/
def walkCollect (p : String) : FSNode → List String
  | FSNode.file _ => if goToLower (extOf p) = ".sql" then [p] else []
  | FSNode.dir cs => walkChildren p cs

/-- Walk of a directory's children, in listed (lexical) order. -/
def walkChildren (p : String) : List (String × FSNode) → List String
  | [] => []
  | (n, c) :: rest => walkCollect (p ++ "/" ++ n) c ++ walkChildren p rest

end

/-- CollectSQLFiles from parser.go: a non-directory root is returned
as-is (no extension check); a directory is walked. -/
def CollectSQLFiles (root : String) (node : FSNode) : List String :=
  match node with
  | FSNode.file _ => [root]
  | FSNode.dir cs => walkChildren root cs

/-- The accumulation loop of ResolveFiles: skip empty entries, stat each
input (a missing path is a hard error), expand directories through
CollectSQLFiles, and keep file entries only when their extension is
exactly `.sql`. -/
def resolveLoop (fs : List (String × FSNode)) : List String → Except String (List String)
  | [] => Except.ok []
  | inp :: rest =>
    if inp = "" then resolveLoop fs rest
    else
      match fs.lookup inp with
      | none => Except.error ("stat " ++ inp)
      | some (FSNode.dir cs) =>
        match resolveLoop fs rest with
        | Except.error e => Except.error e
        | Except.ok restF => Except.ok (walkChildren inp cs ++ restF)
      | some (FSNode.file _) =>
        if extOf inp ≠ ".sql" then resolveLoop fs rest
        else
          match resolveLoop fs rest with
          | Except.error e => Except.error e
          | Except.ok restF => Except.ok (inp :: restF)

/-- ResolveFiles from resolve.go, over a model file system given as an
association list from input path to node: expand all inputs, then
reject an empty result. -/
def ResolveFiles (fs : List (String × FSNode)) (inputs : List String) :
    Except String (List String) :=
  match resolveLoop fs inputs with
  | Except.error e => Except.error e
  | Except.ok files =>
    if files.isEmpty then Except.error ("no SQL files resolved") else Except.ok files

/-- Expansion of a single resolver input, used to state that ResolveFiles
is plain concatenation of per-input expansions, with no deduplication. -/
def expandInput (fs : List (String × FSNode)) (inp : String) : List String :=
  if inp = "" then []
  else
    match fs.lookup inp with
    | none => []
    | some (FSNode.dir cs) => walkChildren inp cs
    | some (FSNode.file _) => if extOf inp ≠ ".sql" then [] else [inp]

theorem star_append_ne (s : String) : "*" ++ s ≠ s := by
  intro h
  have hl := congrArg String.length h
  rw [String.length_append] at hl
  have h1 : ("*" : String).length = 1 := rfl
  rw [h1] at hl
  omega

theorem sqlTypeToGoNorm_fallback (d : String) (h : recognizedGoType d = false) :
    sqlTypeToGoNorm d = "interface\x7b\x7d" := by
  unfold recognizedGoType at h
  simp only [Bool.or_eq_false_iff] at h
  unfold sqlTypeToGoNorm
  simp_all

/-- C3: Validate fails exactly when a required part is missing: empty
name, unknown kind, `:one`/`:many` with no result columns, or an empty
(trimmed) body; a `:exec` procedure with zero result columns passes
whenever the rest is present.  The hypothesis records that parsed
procedures store the body already trimmed. -/
theorem validate_requires_parts (p : Procedure) (hsql : p.SQL = goTrim p.SQL) :
    p.Validate = none ↔
      (p.Name ≠ "" ∧ (p.Kind = ":one" ∨ p.Kind = ":many" ∨ p.Kind = ":exec")
        ∧ (p.Kind = ":exec" ∨ p.Returns ≠ []) ∧ goTrim p.SQL ≠ "") := by
  rw [← hsql]
  clear hsql
  by_cases h1 : p.Name = "" <;>
    by_cases e1 : p.Kind = ":one" <;>
    by_cases e2 : p.Kind = ":many" <;>
    by_cases e3 : p.Kind = ":exec" <;>
    by_cases h4 : p.Returns = [] <;>
    by_cases h5 : p.SQL = "" <;>
    simp_all [Procedure.Validate]

theorem validate_requires_parts_inst :
    (Procedure.mk "Ping" "f.sql" "SELECT ping();" "" ":exec" [] []).Validate = none :=
  (validate_requires_parts _ (by decide)).mpr (by decide)

/-- C4: the declared-type mapping is a pure function of the normalized
(trimmed, lower-cased) declared type — hence deterministic and
case-insensitive — with the switch's first-match-wins precedence; the
integer family, the containment families, and the dynamic fallback
behave as the spec lists them, and in particular `INT`, `int` and `Int4`
all map to `int32` while every unrecognized type maps to the dynamic
fallback instead of an error. -/
theorem sqlTypeToGo_mapping :
    (∀ s t : String, goToLower (goTrim s) = goToLower (goTrim t) → sqlTypeToGo s = sqlTypeToGo t)
    ∧ sqlTypeToGo "INT" = "int32" ∧ sqlTypeToGo "int" = "int32" ∧ sqlTypeToGo "Int4" = "int32"
    ∧ sqlTypeToGo "smallint" = "int16" ∧ sqlTypeToGo "serial" = "int32"
    ∧ sqlTypeToGo "bigint" = "int64" ∧ sqlTypeToGo "bigserial" = "int64"
    ∧ sqlTypeToGo "character varying" = "string" ∧ sqlTypeToGo "text" = "string"
    ∧ sqlTypeToGo "uuid" = "string" ∧ sqlTypeToGo "boolean" = "bool"
    ∧ sqlTypeToGo "double precision" = "float64" ∧ sqlTypeToGo "numeric" = "float64"
    ∧ sqlTypeToGo "decimal" = "float64"
    ∧ sqlTypeToGo "timestamp with time zone" = "time.Time" ∧ sqlTypeToGo "date" = "time.Time"
    ∧ sqlTypeToGo "jsonb" = "[]byte"
    ∧ (∀ s : String, recognizedGoType (goToLower (goTrim s)) = false →
        sqlTypeToGo s = "interface\x7b\x7d") := by
  refine ⟨fun s t h => ?_, ?_, ?_, ?_, ?_, ?_, ?_, ?_, ?_, ?_, ?_, ?_, ?_, ?_, ?_, ?_, ?_, ?_,
    fun s h => sqlTypeToGoNorm_fallback _ h⟩
  · unfold sqlTypeToGo
    rw [h]
  all_goals decide

theorem sqlTypeToGo_mapping_inst : sqlTypeToGo "INT" = sqlTypeToGo " int " :=
  sqlTypeToGo_mapping.1 "INT" " int " (by decide)

/-- C8: the generated field type for an introspected column is the
pointer-wrapped base type exactly when the column is nullable and the
mapped base type is not already a slice (`[]`-prefixed) type; a
non-nullable column is never pointer-wrapped, and a nullable column of
slice base type keeps the bare base type. -/
theorem goTypeForColumn_nullable_iff (col : TableColumn) :
    (goTypeForColumn col = "*" ++ sqlTypeToGo col.DBType ↔
      col.Nullable = true ∧ strStarts (sqlTypeToGo col.DBType) ("[]") = false)
    ∧ (col.Nullable = false → goTypeForColumn col = sqlTypeToGo col.DBType)
    ∧ (col.Nullable = true → strStarts (sqlTypeToGo col.DBType) ("[]") = true →
        goTypeForColumn col = sqlTypeToGo col.DBType) := by
  unfold goTypeForColumn
  by_cases hn : col.Nullable <;>
    by_cases hs : strStarts (sqlTypeToGo col.DBType) ("[]") <;>
    simp [hn, hs] <;>
    exact fun h => star_append_ne _ h.symm

theorem goTypeForColumn_nullable_iff_inst :
    goTypeForColumn ⟨"id", "int4", false⟩ = "int32" := by
  have h := (goTypeForColumn_nullable_iff ⟨"id", "int4", false⟩).2.1 rfl
  exact h.trans (by decide)

theorem flatMap_eq_filterMap {α β : Type} (f : α → List β) (g : α → Option β)
    (hfg : ∀ x, f x = (g x).toList) : ∀ l : List α, l.flatMap f = l.filterMap g := by
  intro l
  induction l with
  | nil => rfl
  | cons a t ih =>
    rw [List.flatMap_cons, List.filterMap_cons, ih, hfg a]
    cases g a <;> rfl

/-- C10: every comma-separated `returns:` entry that is blank or has
fewer than two whitespace-separated fields is silently skipped — the
column parser is the filter of the well-formed (two-or-more-field)
entries, and in particular never fails. -/
theorem parseColumns_skips_short :
    (∀ d : String, parseColumns d = (splitComma d).filterMap entryColumn)
    ∧ parseColumns ("id int, bogus, , name text") = [⟨"id", "int"⟩, ⟨"name", "text"⟩] := by
  constructor
  · intro d
    unfold parseColumns
    refine flatMap_eq_filterMap _ _ (fun part => ?_) (splitComma d)
    unfold entryColumn
    by_cases h : goTrim part = ""
    · rw [h]
      simp [h, goFields]
      rfl
    · simp only [h, if_neg h, if_false]
      cases hf : goFields (goTrim part) with
      | nil => simp [hf]
      | cons n rest =>
        cases rest with
        | nil => simp [hf]
        | cons t ts => simp [hf]
  · decide

theorem strJoin_cons (sep a : String) (l : List String) :
    strJoin sep (a :: l) = if l.isEmpty then a else a ++ sep ++ strJoin sep l := by
  cases l <;> rfl

theorem strJoin_append_one (sep : String) (l : List String) (x : String) :
    strJoin sep (l ++ [x]) = if l.isEmpty then x else strJoin sep l ++ sep ++ x := by
  induction l with
  | nil => rfl
  | cons a t ih =>
    cases t with
    | nil => rfl
    | cons b t2 =>
      have ih2 : strJoin sep ((b :: t2) ++ [x]) = strJoin sep (b :: t2) ++ sep ++ x := by
        simpa using ih
      show strJoin sep (a :: ((b :: t2) ++ [x])) = strJoin sep (a :: b :: t2) ++ sep ++ x
      have e1 : strJoin sep (a :: ((b :: t2) ++ [x]))
          = a ++ sep ++ strJoin sep ((b :: t2) ++ [x]) := rfl
      have e2 : strJoin sep (a :: b :: t2) = a ++ sep ++ strJoin sep (b :: t2) := rfl
      rw [e1, e2, ih2]
      simp [String.append_assoc]

theorem specPlaceholders_succ (m : Nat) :
    specPlaceholders (m + 1 + 1) = specPlaceholders (m + 1) ++ ", " ++ ("$" ++ toString (m + 1 + 1)) := by
  have h : specPlaceholders (m + 1 + 1) = if m + 1 = 0 then "$1" else
      specPlaceholders (m + 1) ++ ", " ++ ("$" ++ toString (m + 1 + 1)) := rfl
  rw [h, if_neg (Nat.succ_ne_zero m)]

theorem specPlaceholders_length_pos (n : Nat) : 0 < (specPlaceholders (n + 1)).length := by
  induction n with
  | zero => decide
  | succ m ih =>
    rw [specPlaceholders_succ m]
    simp only [String.length_append]
    omega

theorem specPlaceholders_ne_empty (n : Nat) : specPlaceholders (n + 1) ≠ "" := by
  intro h
  have hp := specPlaceholders_length_pos n
  rw [h] at hp
  simp at hp

theorem placeholders_join_eq (n : Nat) :
    strJoin (", ") ((List.range (n + 1)).map (fun i => "$" ++ toString (i + 1)))
      = specPlaceholders (n + 1) := by
  induction n with
  | zero => decide
  | succ m ih =>
    rw [List.range_succ, List.map_append]
    rw [show List.map (fun i => "$" ++ toString (i + 1)) [m + 1]
      = ["$" ++ toString (m + 1 + 1)] from rfl]
    rw [strJoin_append_one]
    have hne : ((List.range (m + 1)).map (fun i => "$" ++ toString (i + 1))).isEmpty = false := by
      have hlen : ((List.range (m + 1)).map (fun i => "$" ++ toString (i + 1))).length = m + 1 := by
        simp
      cases hcase : (List.range (m + 1)).map (fun i => "$" ++ toString (i + 1)) with
      | nil => rw [hcase] at hlen; simp at hlen
      | cons y ys => rfl
    rw [hne, if_neg Bool.false_ne_true, ih]
    exact (specPlaceholders_succ m).symm

theorem callSQL_spec (p : Procedure) (h : p.SQLName = "") :
    callSQL p = specCallStmt p.Name p.Params.length := by
  unfold callSQL sqlName placeholderList specCallStmt
  rw [h]
  simp only [ne_eq, not_true_eq_false, if_false]
  cases hn : p.Params.length with
  | zero =>
    simp only [if_pos rfl]
    show p.Name ++ "()" = p.Name ++ "(" ++ specPlaceholders 0 ++ ")"
    show p.Name ++ "()" = p.Name ++ "(" ++ "" ++ ")"
    rw [String.append_empty, String.append_assoc]
    rfl
  | succ m =>
    rw [if_neg (Nat.succ_ne_zero m)]
    rw [placeholders_join_eq m]
    rw [if_neg (specPlaceholders_ne_empty m)]

/-- C5: the statement embedded in a generated callable is built from the
procedure name and one positional placeholder per parameter, `$1`
through `$n` in parameter order: a `:exec` procedure yields the bare
call and any other kind yields the select-all form.  The hypothesis
records that parser-produced procedures carry no SQL-name override. -/
theorem selectSQL_shape (p : Procedure) (h : p.SQLName = "") :
    (p.Kind = ":exec" → selectSQL p = "SELECT " ++ specCallStmt p.Name p.Params.length)
    ∧ (p.Kind ≠ ":exec" →
        selectSQL p = "SELECT * FROM " ++ specCallStmt p.Name p.Params.length) := by
  unfold selectSQL
  constructor
  · intro hk
    rw [if_pos hk, callSQL_spec p h]
  · intro hk
    rw [if_neg hk, callSQL_spec p h]

theorem selectSQL_shape_inst :
    selectSQL (Procedure.mk "get_user" "f.sql" "s" "" ":one"
        [⟨"user_id", "int"⟩, ⟨"limit_n", "int"⟩] [])
      = "SELECT * FROM get_user($1, $2)" := by
  have h := (selectSQL_shape (Procedure.mk "get_user" "f.sql" "s" "" ":one"
    [⟨"user_id", "int"⟩, ⟨"limit_n", "int"⟩] []) rfl).2 (by decide)
  exact h.trans (by decide)

theorem ledgerHas_iff (st : DBState) (v : Int) :
    ledgerHas st v = true ↔ v ∈ st.ledger.map Prod.fst := by
  unfold ledgerHas
  exact List.elem_iff

theorem ledgerHas_append_true (st : DBState) (row : Int × String) (v : Int)
    (h : ledgerHas st v = true) : ledgerHas ⟨st.ledger ++ [row]⟩ v = true := by
  rw [ledgerHas_iff] at h ⊢
  simp [h]

theorem ledgerHas_append_false (st : DBState) (row : Int × String) (v : Int)
    (h1 : ledgerHas st v = false) (h2 : v ≠ row.1) :
    ledgerHas ⟨st.ledger ++ [row]⟩ v = false := by
  rcases hres : ledgerHas ⟨st.ledger ++ [row]⟩ v with _ | _
  · rfl
  · rw [ledgerHas_iff] at hres
    simp only [List.map_append, List.mem_append, List.map_cons, List.map_nil,
      List.mem_cons, List.not_mem_nil, or_false] at hres
    rcases hres with hm | hm
    · rw [← ledgerHas_iff] at hm
      rw [hm] at h1
      cases h1
    · exact absurd hm h2

theorem migrateLoop_mem_mono (e : String → Bool) (i : Int → String → Bool)
    (a : Int → Bool) :
    ∀ (l : List SchemaMigration) (st : DBState) (x : Int × String),
      x ∈ st.ledger → x ∈ (migrateLoop e i a st l).1.ledger := by
  intro l
  induction l with
  | nil => intro st x hx; exact hx
  | cons m rest ih =>
    intro st x hx
    unfold migrateLoop
    rcases ha : a m.Version
    · simp only [Bool.false_eq_true, if_false]
      unfold applyMigration
      rcases he : e m.SQL
      · simpa using hx
      · rcases hi : i m.Version m.Name
        · simpa using hx
        · simp only [if_pos rfl]
          exact ih _ x (by simp [hx])
    · simp only [if_pos rfl]
      exact ih st x hx

theorem applyMigration_ok (e : String → Bool) (i : Int → String → Bool)
    (st : DBState) (m : SchemaMigration)
    (he : e m.SQL = true) (hi : i m.Version m.Name = true) :
    applyMigration e i st m = Except.ok ⟨st.ledger ++ [(m.Version, m.Name)]⟩ := by
  unfold applyMigration
  rw [he, hi]
  simp

theorem applyMigration_err_body (e : String → Bool) (i : Int → String → Bool)
    (st : DBState) (m : SchemaMigration) (he : e m.SQL = false) :
    applyMigration e i st m = Except.error ("apply migration " ++ m.File) := by
  unfold applyMigration
  rw [he]
  simp

theorem applyMigration_err_insert (e : String → Bool) (i : Int → String → Bool)
    (st : DBState) (m : SchemaMigration)
    (he : e m.SQL = true) (hi : i m.Version m.Name = false) :
    applyMigration e i st m = Except.error ("insert ledger row for " ++ m.File) := by
  unfold applyMigration
  rw [he, hi]
  simp

theorem migrateLoop_cons_skip (e : String → Bool) (i : Int → String → Bool)
    (a : Int → Bool) (st : DBState) (m : SchemaMigration) (rest : List SchemaMigration)
    (ha : a m.Version = true) :
    migrateLoop e i a st (m :: rest) = migrateLoop e i a st rest := by
  rw [migrateLoop, ha]
  simp

theorem migrateLoop_cons_ok (e : String → Bool) (i : Int → String → Bool)
    (a : Int → Bool) (st st2 : DBState) (m : SchemaMigration) (rest : List SchemaMigration)
    (ha : a m.Version = false) (hok : applyMigration e i st m = Except.ok st2) :
    migrateLoop e i a st (m :: rest)
      = ((migrateLoop e i a st2 rest).1, m :: (migrateLoop e i a st2 rest).2.1,
          (migrateLoop e i a st2 rest).2.2) := by
  rw [migrateLoop, ha, hok]
  simp

theorem migrateLoop_cons_err (e : String → Bool) (i : Int → String → Bool)
    (a : Int → Bool) (st : DBState) (m : SchemaMigration) (rest : List SchemaMigration)
    (er : String) (ha : a m.Version = false)
    (herr : applyMigration e i st m = Except.error er) :
    migrateLoop e i a st (m :: rest) = (st, [m], some er) := by
  rw [migrateLoop, ha, herr]
  simp

theorem migrateLoop_all_applied (e : String → Bool) (i : Int → String → Bool)
    (a : Int → Bool) :
    ∀ (l : List SchemaMigration) (st st1 : DBState) (att : List SchemaMigration),
      (∀ v, a v = true → ledgerHas st v = true) →
      migrateLoop e i a st l = (st1, att, none) →
      ∀ m ∈ l, ledgerHas st1 m.Version = true := by
  intro l
  induction l with
  | nil =>
    intro st st1 att ha h m hm
    exact absurd hm (List.not_mem_nil m)
  | cons m0 rest ih =>
    intro st st1 att ha h m hm
    rcases hap : a m0.Version with _ | _
    · rcases he : e m0.SQL with _ | _
      · rw [migrateLoop_cons_err e i a st m0 rest _ hap
          (applyMigration_err_body e i st m0 he)] at h
        simp at h
      · rcases hi : i m0.Version m0.Name with _ | _
        · rw [migrateLoop_cons_err e i a st m0 rest _ hap
            (applyMigration_err_insert e i st m0 he hi)] at h
          simp at h
        · rw [migrateLoop_cons_ok e i a st ⟨st.ledger ++ [(m0.Version, m0.Name)]⟩ m0 rest
            hap (applyMigration_ok e i st m0 he hi)] at h
          rcases hr : migrateLoop e i a ⟨st.ledger ++ [(m0.Version, m0.Name)]⟩ rest
            with ⟨s, at2, er⟩
          rw [hr] at h
          simp only [Prod.mk.injEq] at h
          obtain ⟨h1, h2, h3⟩ := h
          subst h3
          rw [← h1]
          rcases List.mem_cons.mp hm with hm | hm
          · rw [hm]
            have hx : (m0.Version, m0.Name) ∈
                (migrateLoop e i a ⟨st.ledger ++ [(m0.Version, m0.Name)]⟩ rest).1.ledger :=
              migrateLoop_mem_mono e i a rest _ _ (by simp)
            rw [hr] at hx
            rw [ledgerHas_iff]
            exact List.mem_map_of_mem Prod.fst hx
          · refine ih _ s at2 ?_ hr m hm
            intro v hv
            exact ledgerHas_append_true st _ v (ha v hv)
    · rw [migrateLoop_cons_skip e i a st m0 rest hap] at h
      rcases List.mem_cons.mp hm with hm | hm
      · rw [hm]
        have hst : ledgerHas st m0.Version = true := ha _ hap
        rw [ledgerHas_iff] at hst ⊢
        rcases List.mem_map.mp hst with ⟨x, hx, hxv⟩
        have hx2 : x ∈ (migrateLoop e i a st rest).1.ledger :=
          migrateLoop_mem_mono e i a rest st x hx
        rw [h] at hx2
        exact List.mem_map.mpr ⟨x, hx2, hxv⟩
      · exact ih st st1 att ha h m hm

theorem migrateLoop_skip_all (e : String → Bool) (i : Int → String → Bool)
    (a : Int → Bool) :
    ∀ (l : List SchemaMigration) (st : DBState),
      (∀ m ∈ l, a m.Version = true) → migrateLoop e i a st l = (st, [], none) := by
  intro l
  induction l with
  | nil => intro st h; rfl
  | cons m rest ih =>
    intro st h
    rw [migrateLoop_cons_skip e i a st m rest (h m (by simp))]
    exact ih st (fun m2 hm2 => h m2 (by simp [hm2]))

/-- C1: schema migration is idempotent.  After a first successful run of
SchemaMigrator.Migrate over a migration list, a second run over the same
list — whatever the database would answer, since every version is now
recorded in the ledger — skips every migration, submits zero migration
bodies, and leaves the ledger unchanged. -/
theorem migrate_idempotent_second_run (e1 e2 : String → Bool)
    (i1 i2 : Int → String → Bool) (st st1 : DBState)
    (migs att : List SchemaMigration)
    (h : SchemaMigrator.Migrate e1 i1 st migs = (st1, att, none)) :
    SchemaMigrator.Migrate e2 i2 st1 migs = (st1, [], none) := by
  cases migs with
  | nil =>
    have h2 : (st, ([] : List SchemaMigration), (none : Option String)) = (st1, att, none) := h
    simp only [Prod.mk.injEq] at h2
    obtain ⟨h2a, h2b, h2c⟩ := h2
    show (st1, ([] : List SchemaMigration), (none : Option String)) = (st1, [], none)
    rfl
  | cons m rest =>
    have h2 : migrateLoop e1 i1 (appliedVersions st) st (m :: rest) = (st1, att, none) := h
    have hall := migrateLoop_all_applied e1 i1 (appliedVersions st) (m :: rest) st st1 att
      (fun v hv => hv) h2
    show migrateLoop e2 i2 (appliedVersions st1) st1 (m :: rest) = (st1, [], none)
    exact migrateLoop_skip_all e2 i2 (appliedVersions st1) (m :: rest) st1 hall

theorem migrate_idempotent_second_run_inst :
    SchemaMigrator.Migrate (fun _ => true) (fun _ _ => false) ⟨[(1, "init")]⟩
      [SchemaMigration.mk 1 "init" "001_init.sql" "CREATE TABLE t;"]
      = (⟨[(1, "init")]⟩, [], none) :=
  migrate_idempotent_second_run (fun _ => true) (fun _ => true) (fun _ _ => true)
    (fun _ _ => false) ⟨[]⟩ ⟨[(1, "init")]⟩
    [SchemaMigration.mk 1 "init" "001_init.sql" "CREATE TABLE t;"]
    [SchemaMigration.mk 1 "init" "001_init.sql" "CREATE TABLE t;"] rfl

theorem migrateLoop_failure (e : String → Bool) (i : Int → String → Bool) (a : Int → Bool) :
    ∀ (l : List SchemaMigration) (st st1 : DBState) (att : List SchemaMigration) (er : String),
      l.Pairwise (fun x y => x.Version ≠ y.Version) →
      (∀ m ∈ l, a m.Version = false → ledgerHas st m.Version = false) →
      migrateLoop e i a st l = (st1, att, some er) →
      ∃ pre mf post, l = pre ++ mf :: post ∧ a mf.Version = false ∧
        (e mf.SQL = false ∨ i mf.Version mf.Name = false) ∧
        ledgerHas st1 mf.Version = false ∧
        migrateLoop e i a st (pre ++ [mf]) = (st1, att, some er) := by
  intro l
  induction l with
  | nil =>
    intro st st1 att er hpw hst h
    have h2 : (st, ([] : List SchemaMigration), (none : Option String)) = (st1, att, some er) := h
    simp at h2
  | cons m0 rest ih =>
    intro st st1 att er hpw hst h
    rcases hap : a m0.Version with _ | _
    · rcases he : e m0.SQL with _ | _
      · rw [migrateLoop_cons_err e i a st m0 rest _ hap
          (applyMigration_err_body e i st m0 he)] at h
        simp only [Prod.mk.injEq] at h
        obtain ⟨h1, h2, h3⟩ := h
        refine ⟨[], m0, rest, rfl, hap, Or.inl he, ?_, ?_⟩
        · rw [← h1]
          exact hst m0 (List.mem_cons_self m0 rest) hap
        · rw [List.nil_append]
          rw [migrateLoop_cons_err e i a st m0 [] _ hap
            (applyMigration_err_body e i st m0 he)]
          rw [h1, h2, h3]
      · rcases hi : i m0.Version m0.Name with _ | _
        · rw [migrateLoop_cons_err e i a st m0 rest _ hap
            (applyMigration_err_insert e i st m0 he hi)] at h
          simp only [Prod.mk.injEq] at h
          obtain ⟨h1, h2, h3⟩ := h
          refine ⟨[], m0, rest, rfl, hap, Or.inr hi, ?_, ?_⟩
          · rw [← h1]
            exact hst m0 (List.mem_cons_self m0 rest) hap
          · rw [List.nil_append]
            rw [migrateLoop_cons_err e i a st m0 [] _ hap
              (applyMigration_err_insert e i st m0 he hi)]
            rw [h1, h2, h3]
        · rw [migrateLoop_cons_ok e i a st ⟨st.ledger ++ [(m0.Version, m0.Name)]⟩ m0 rest
            hap (applyMigration_ok e i st m0 he hi)] at h
          rcases hr : migrateLoop e i a ⟨st.ledger ++ [(m0.Version, m0.Name)]⟩ rest
            with ⟨s, at2, er2⟩
          rw [hr] at h
          simp only [Prod.mk.injEq] at h
          obtain ⟨h1, h2, h3⟩ := h
          subst h3
          have hpc := List.pairwise_cons.mp hpw
          have hst2 : ∀ m ∈ rest, a m.Version = false →
              ledgerHas ⟨st.ledger ++ [(m0.Version, m0.Name)]⟩ m.Version = false := by
            intro m hm hma
            refine ledgerHas_append_false st _ _ (hst m (List.mem_cons_of_mem m0 hm) hma) ?_
            intro heq
            exact hpc.1 m hm heq.symm
          obtain ⟨pre, mf, post, hsplit, hamf, hfail, hled, hloop⟩ :=
            ih ⟨st.ledger ++ [(m0.Version, m0.Name)]⟩ s at2 er hpc.2 hst2 hr
          refine ⟨m0 :: pre, mf, post, by rw [hsplit]; rfl, hamf, hfail, ?_, ?_⟩
          · rw [← h1]
            exact hled
          · rw [List.cons_append]
            rw [migrateLoop_cons_ok e i a st ⟨st.ledger ++ [(m0.Version, m0.Name)]⟩ m0
              (pre ++ [mf]) hap (applyMigration_ok e i st m0 he hi)]
            rw [hloop]
            show (s, m0 :: at2, some er) = (st1, att, some er)
            rw [h1, h2]
    · rw [migrateLoop_cons_skip e i a st m0 rest hap] at h
      have hpc := List.pairwise_cons.mp hpw
      obtain ⟨pre, mf, post, hsplit, hamf, hfail, hled, hloop⟩ :=
        ih st st1 att er hpc.2 (fun m hm hma => hst m (List.mem_cons_of_mem m0 hm) hma) h
      refine ⟨m0 :: pre, mf, post, by rw [hsplit]; rfl, hamf, hfail, hled, ?_⟩
      rw [List.cons_append]
      rw [migrateLoop_cons_skip e i a st m0 (pre ++ [mf]) hap]
      exact hloop

/-- C2: each migration is one atomic transaction and its failure aborts
the run.  When a run of SchemaMigrator.Migrate over a duplicate-free
migration list fails, there is a failing migration at which either the
body or the ledger insert was refused; the transaction rolled back, so
the final ledger holds no row for that version; and the run behaves
exactly as if the migrations ordered after it were absent. -/
theorem migrate_atomic_failfast (e : String → Bool) (i : Int → String → Bool)
    (st st1 : DBState) (migs att : List SchemaMigration) (er : String)
    (hpw : migs.Pairwise (fun x y => x.Version ≠ y.Version))
    (h : SchemaMigrator.Migrate e i st migs = (st1, att, some er)) :
    ∃ pre mf post, migs = pre ++ mf :: post ∧
      (e mf.SQL = false ∨ i mf.Version mf.Name = false) ∧
      ledgerHas st1 mf.Version = false ∧
      SchemaMigrator.Migrate e i st (pre ++ [mf]) = (st1, att, some er) := by
  cases migs with
  | nil =>
    have h2 : (st, ([] : List SchemaMigration), (none : Option String)) = (st1, att, some er) := h
    simp at h2
  | cons m rest =>
    have h2 : migrateLoop e i (appliedVersions st) st (m :: rest) = (st1, att, some er) := h
    obtain ⟨pre, mf, post, hsplit, hamf, hfail, hled, hloop⟩ :=
      migrateLoop_failure e i (appliedVersions st) (m :: rest) st st1 att er hpw
        (fun m2 _ hm2 => hm2) h2
    refine ⟨pre, mf, post, hsplit, hfail, hled, ?_⟩
    have hne : (pre ++ [mf]).isEmpty = false := by
      cases pre <;> rfl
    unfold SchemaMigrator.Migrate
    rw [hne]
    simp only [Bool.false_eq_true, if_false]
    exact hloop

theorem migrate_atomic_failfast_inst :
    ∃ pre mf post,
      [SchemaMigration.mk 1 "init" "001_init.sql" "CREATE TABLE t;"] = pre ++ mf :: post ∧
      ((fun _ : String => false) mf.SQL = false
        ∨ (fun _ : Int => fun _ : String => true) mf.Version mf.Name = false) ∧
      ledgerHas ⟨[]⟩ mf.Version = false ∧
      SchemaMigrator.Migrate (fun _ => false) (fun _ _ => true) ⟨[]⟩ (pre ++ [mf])
        = (⟨[]⟩, [SchemaMigration.mk 1 "init" "001_init.sql" "CREATE TABLE t;"],
           some ("apply migration 001_init.sql")) :=
  migrate_atomic_failfast (fun _ => false) (fun _ _ => true) ⟨[]⟩ ⟨[]⟩
    [SchemaMigration.mk 1 "init" "001_init.sql" "CREATE TABLE t;"]
    [SchemaMigration.mk 1 "init" "001_init.sql" "CREATE TABLE t;"]
    ("apply migration 001_init.sql") (by decide) rfl

theorem parseStep_name (p0 : Procedure) (sl0 : List String) (l n k : String)
    (hn : matchNameLine l = some (n, k)) :
    parseStep (p0, sl0) l = ({ p0 with Name := n, Kind := k }, sl0) := by
  unfold parseStep
  rw [hn]

theorem parseStep_param (p0 : Procedure) (sl0 : List String) (l n t : String)
    (hn : matchNameLine l = none) (hp : matchParamLine l = some (n, t)) :
    parseStep (p0, sl0) l
      = ({ p0 with Params := p0.Params ++ [⟨n, normalizeType t⟩] }, sl0) := by
  unfold parseStep
  rw [hn, hp]

theorem parseStep_returns (p0 : Procedure) (sl0 : List String) (l d : String)
    (hn : matchNameLine l = none) (hp : matchParamLine l = none)
    (hr : matchReturnsLine l = some d) :
    parseStep (p0, sl0) l = ({ p0 with Returns := p0.Returns ++ parseColumns d }, sl0) := by
  unfold parseStep
  rw [hn, hp, hr]

theorem parseStep_comment (p0 : Procedure) (sl0 : List String) (l : String)
    (hn : matchNameLine l = none) (hp : matchParamLine l = none)
    (hr : matchReturnsLine l = none) (hc : strStarts (goTrim l) ("--") = true) :
    parseStep (p0, sl0) l = (p0, sl0) := by
  unfold parseStep
  rw [hn, hp, hr, hc]
  rfl

theorem parseStep_body (p0 : Procedure) (sl0 : List String) (l : String)
    (hn : matchNameLine l = none) (hp : matchParamLine l = none)
    (hr : matchReturnsLine l = none) (hc : strStarts (goTrim l) ("--") = false) :
    parseStep (p0, sl0) l = (p0, sl0 ++ [l]) := by
  unfold parseStep
  rw [hn, hp, hr, hc]
  rfl

theorem declaredParams_cons_name (l : String) (rest : List String) (n k : String)
    (hn : matchNameLine l = some (n, k)) :
    declaredParams (l :: rest) = declaredParams rest := by
  unfold declaredParams
  rw [List.flatMap_cons, hn]
  rfl

theorem declaredParams_cons_param (l : String) (rest : List String) (n t : String)
    (hn : matchNameLine l = none) (hp : matchParamLine l = some (n, t)) :
    declaredParams (l :: rest) = ⟨n, normalizeType t⟩ :: declaredParams rest := by
  unfold declaredParams
  rw [List.flatMap_cons, hn, hp]
  rfl

theorem declaredParams_cons_other (l : String) (rest : List String)
    (hn : matchNameLine l = none) (hp : matchParamLine l = none) :
    declaredParams (l :: rest) = declaredParams rest := by
  unfold declaredParams
  rw [List.flatMap_cons, hn, hp]
  rfl

theorem declaredReturns_cons_name (l : String) (rest : List String) (n k : String)
    (hn : matchNameLine l = some (n, k)) :
    declaredReturns (l :: rest) = declaredReturns rest := by
  unfold declaredReturns
  rw [List.flatMap_cons, hn]
  rfl

theorem declaredReturns_cons_param (l : String) (rest : List String) (n t : String)
    (hn : matchNameLine l = none) (hp : matchParamLine l = some (n, t)) :
    declaredReturns (l :: rest) = declaredReturns rest := by
  unfold declaredReturns
  rw [List.flatMap_cons, hn, hp]
  rfl

theorem declaredReturns_cons_returns (l : String) (rest : List String) (d : String)
    (hn : matchNameLine l = none) (hp : matchParamLine l = none)
    (hr : matchReturnsLine l = some d) :
    declaredReturns (l :: rest) = parseColumns d ++ declaredReturns rest := by
  unfold declaredReturns
  rw [List.flatMap_cons, hn, hp, hr]

theorem declaredReturns_cons_other (l : String) (rest : List String)
    (hn : matchNameLine l = none) (hp : matchParamLine l = none)
    (hr : matchReturnsLine l = none) :
    declaredReturns (l :: rest) = declaredReturns rest := by
  unfold declaredReturns
  rw [List.flatMap_cons, hn, hp, hr]
  rfl

theorem bodyLines_cons_skip (l : String) (rest : List String) (h : isBodyLine l = false) :
    bodyLines (l :: rest) = bodyLines rest := by
  unfold bodyLines
  exact List.filter_cons_of_neg (by simp [h])

theorem bodyLines_cons_keep (l : String) (rest : List String) (h : isBodyLine l = true) :
    bodyLines (l :: rest) = l :: bodyLines rest := by
  unfold bodyLines
  exact List.filter_cons_of_pos h

theorem isBodyLine_of_name (l n k : String) (hn : matchNameLine l = some (n, k)) :
    isBodyLine l = false := by
  unfold isBodyLine
  rw [hn]
  rfl

theorem isBodyLine_of_param (l n t : String) (hn : matchNameLine l = none)
    (hp : matchParamLine l = some (n, t)) : isBodyLine l = false := by
  unfold isBodyLine
  rw [hn, hp]
  rfl

theorem isBodyLine_of_returns (l d : String) (hn : matchNameLine l = none)
    (hp : matchParamLine l = none) (hr : matchReturnsLine l = some d) :
    isBodyLine l = false := by
  unfold isBodyLine
  rw [hn, hp, hr]
  rfl

theorem isBodyLine_of_comment (l : String) (hn : matchNameLine l = none)
    (hp : matchParamLine l = none) (hr : matchReturnsLine l = none)
    (hc : strStarts (goTrim l) ("--") = true) : isBodyLine l = false := by
  unfold isBodyLine
  rw [hn, hp, hr, hc]
  rfl

theorem isBodyLine_of_body (l : String) (hn : matchNameLine l = none)
    (hp : matchParamLine l = none) (hr : matchReturnsLine l = none)
    (hc : strStarts (goTrim l) ("--") = false) : isBodyLine l = true := by
  unfold isBodyLine
  rw [hn, hp, hr, hc]
  rfl

theorem getLastD_of_cons {α : Type} (a : α) (t : List α) (d : α) :
    ((a :: t).getLast?).getD d = (t.getLast?).getD a := by
  cases t with
  | nil => rfl
  | cons b t2 =>
    rw [List.getLast?_cons_cons]
    rcases h : (b :: t2).getLast? with _ | x
    · exact absurd h (Option.isSome_iff_ne_none.mp rfl)
    · rfl

theorem lastNameHeader_cons_name (l : String) (rest : List String) (n k : String)
    (hn : matchNameLine l = some (n, k)) (d : String × String) :
    ((lastNameHeader (l :: rest)).getD d) = ((lastNameHeader rest).getD (n, k)) := by
  unfold lastNameHeader
  rw [List.filterMap_cons, hn]
  exact getLastD_of_cons (n, k) (rest.filterMap matchNameLine) d

theorem lastNameHeader_cons_none (l : String) (rest : List String)
    (hn : matchNameLine l = none) :
    lastNameHeader (l :: rest) = lastNameHeader rest := by
  unfold lastNameHeader
  rw [List.filterMap_cons, hn]

theorem parseStep_fold :
    ∀ (lines : List String) (p0 : Procedure) (sl0 : List String),
      (lines.foldl parseStep (p0, sl0)).1.Params = p0.Params ++ declaredParams lines
      ∧ (lines.foldl parseStep (p0, sl0)).1.Returns = p0.Returns ++ declaredReturns lines
      ∧ (lines.foldl parseStep (p0, sl0)).2 = sl0 ++ bodyLines lines
      ∧ ((lines.foldl parseStep (p0, sl0)).1.Name, (lines.foldl parseStep (p0, sl0)).1.Kind)
          = ((lastNameHeader lines).getD (p0.Name, p0.Kind))
      ∧ (lines.foldl parseStep (p0, sl0)).1.File = p0.File
      ∧ (lines.foldl parseStep (p0, sl0)).1.SQL = p0.SQL
      ∧ (lines.foldl parseStep (p0, sl0)).1.SQLName = p0.SQLName := by
  intro lines
  induction lines with
  | nil =>
    intro p0 sl0
    exact ⟨by simp [declaredParams], by simp [declaredReturns], by simp [bodyLines],
      rfl, rfl, rfl, rfl⟩
  | cons l rest ih =>
    intro p0 sl0
    rw [List.foldl_cons]
    cases hn : matchNameLine l with
    | some nk =>
      obtain ⟨n, k⟩ := nk
      rw [parseStep_name p0 sl0 l n k hn]
      obtain ⟨ihP, ihR, ihS, ihNK, ihF, ihQ, ihN⟩ := ih ({ p0 with Name := n, Kind := k }) sl0
      rw [declaredParams_cons_name l rest n k hn, declaredReturns_cons_name l rest n k hn,
        bodyLines_cons_skip l rest (isBodyLine_of_name l n k hn)]
      refine ⟨ihP, ihR, ihS, ?_, ihF, ihQ, ihN⟩
      rw [lastNameHeader_cons_name l rest n k hn]
      exact ihNK
    | none =>
      cases hp : matchParamLine l with
      | some nt =>
        obtain ⟨n, t⟩ := nt
        rw [parseStep_param p0 sl0 l n t hn hp]
        obtain ⟨ihP, ihR, ihS, ihNK, ihF, ihQ, ihN⟩ :=
          ih ({ p0 with Params := p0.Params ++ [⟨n, normalizeType t⟩] }) sl0
        rw [declaredParams_cons_param l rest n t hn hp,
          declaredReturns_cons_param l rest n t hn hp,
          bodyLines_cons_skip l rest (isBodyLine_of_param l n t hn hp),
          lastNameHeader_cons_none l rest hn]
        refine ⟨?_, ihR, ihS, ihNK, ihF, ihQ, ihN⟩
        rw [ihP]
        simp [List.append_assoc]
      | none =>
        cases hr : matchReturnsLine l with
        | some d =>
          rw [parseStep_returns p0 sl0 l d hn hp hr]
          obtain ⟨ihP, ihR, ihS, ihNK, ihF, ihQ, ihN⟩ :=
            ih ({ p0 with Returns := p0.Returns ++ parseColumns d }) sl0
          rw [declaredParams_cons_other l rest hn hp,
            declaredReturns_cons_returns l rest d hn hp hr,
            bodyLines_cons_skip l rest (isBodyLine_of_returns l d hn hp hr),
            lastNameHeader_cons_none l rest hn]
          refine ⟨ihP, ?_, ihS, ihNK, ihF, ihQ, ihN⟩
          rw [ihR]
          simp [List.append_assoc]
        | none =>
          cases hc : strStarts (goTrim l) ("--") with
          | false =>
            rw [parseStep_body p0 sl0 l hn hp hr hc]
            obtain ⟨ihP, ihR, ihS, ihNK, ihF, ihQ, ihN⟩ := ih p0 (sl0 ++ [l])
            rw [declaredParams_cons_other l rest hn hp,
              declaredReturns_cons_other l rest hn hp hr,
              bodyLines_cons_keep l rest (isBodyLine_of_body l hn hp hr hc),
              lastNameHeader_cons_none l rest hn]
            refine ⟨ihP, ihR, ?_, ihNK, ihF, ihQ, ihN⟩
            rw [ihS]
            simp [List.append_assoc]
          | true =>
            rw [parseStep_comment p0 sl0 l hn hp hr hc]
            obtain ⟨ihP, ihR, ihS, ihNK, ihF, ihQ, ihN⟩ := ih p0 sl0
            rw [declaredParams_cons_other l rest hn hp,
              declaredReturns_cons_other l rest hn hp hr,
              bodyLines_cons_skip l rest (isBodyLine_of_comment l hn hp hr hc),
              lastNameHeader_cons_none l rest hn]
            exact ⟨ihP, ihR, ihS, ihNK, ihF, ihQ, ihN⟩

/-- C6 (amended): for every unit that ParseFile accepts, the parsed
name and kind come from the last name header, the parameters and result
columns list the param/returns headers in declaration order, and the
body is every non-header line whose trimmed form does not start with
`--` — interior blank lines included — joined by newlines with the
joined result trimmed of leading and trailing whitespace. -/
theorem parseFile_reflects_headers (path : String) (lines : List String) (proc : Procedure)
    (h : ParseFile path lines = Except.ok proc) :
    proc.Params = declaredParams lines
    ∧ proc.Returns = declaredReturns lines
    ∧ proc.SQL = goTrim (strJoin ("\n") (bodyLines lines))
    ∧ some (proc.Name, proc.Kind) = lastNameHeader lines
    ∧ proc.File = path := by
  obtain ⟨hP, hR, hS, hNK, hF, hQ, hN⟩ :=
    parseStep_fold lines (Procedure.mk "" path "" "" "" [] []) []
  unfold ParseFile at h
  rcases hv : (parseAccumulate path lines).Validate with _ | e
  · rw [hv] at h
    simp only [Except.ok.injEq] at h
    subst h
    refine ⟨?_, ?_, ?_, ?_, ?_⟩
    · show (lines.foldl parseStep (Procedure.mk "" path "" "" "" [] [], [])).1.Params
        = declaredParams lines
      rw [hP]
      exact List.nil_append _
    · show (lines.foldl parseStep (Procedure.mk "" path "" "" "" [] [], [])).1.Returns
        = declaredReturns lines
      rw [hR]
      exact List.nil_append _
    · show goTrim (strJoin ("\n")
          (lines.foldl parseStep (Procedure.mk "" path "" "" "" [] [], [])).2)
        = goTrim (strJoin ("\n") (bodyLines lines))
      rw [hS]
      rw [List.nil_append]
    · rcases hlast : lastNameHeader lines with _ | nk
      · rw [hlast] at hNK
        have hname : (parseAccumulate path lines).Name = "" := by
          show (lines.foldl parseStep (Procedure.mk "" path "" "" "" [] [], [])).1.Name = ""
          have := congrArg Prod.fst hNK
          simpa using this
        rw [Procedure.Validate, if_pos hname] at hv
        cases hv
      · rw [hlast] at hNK
        show some ((lines.foldl parseStep (Procedure.mk "" path "" "" "" [] [], [])).1.Name,
          (lines.foldl parseStep (Procedure.mk "" path "" "" "" [] [], [])).1.Kind) = some nk
      
        exact congrArg some hNK
    · show (lines.foldl parseStep (Procedure.mk "" path "" "" "" [] [], [])).1.File = path
      rw [hF]
  · rw [hv] at h
    cases h

/-- Closed instance of the header-reflection theorem at the usage-guide
example unit. -/
theorem parseFile_reflects_headers_inst :
    (Procedure.mk "GetUser" "g.sql" "SELECT 1;" "" ":one" [⟨"user_id", "int"⟩]
        [⟨"id", "int"⟩, ⟨"name", "text"⟩]).Params
      = declaredParams (["-- name: GetUser :one", "-- param: user_id int",
          "-- returns: id int, name text", "SELECT 1;"]) :=
  (parseFile_reflects_headers ("g.sql")
    (["-- name: GetUser :one", "-- param: user_id int",
      "-- returns: id int, name text", "SELECT 1;"])
    (Procedure.mk "GetUser" "g.sql" "SELECT 1;" "" ":one" [⟨"user_id", "int"⟩]
      [⟨"id", "int"⟩, ⟨"name", "text"⟩]) rfl).1

/-- C6 counterexample: on a valid unit with an interior blank body line
the parser keeps the blank line in the body, whereas the claim's
non-blank-lines-only accumulation drops it. -/
theorem parseFile_body_blank_cex :
    (ParseFile ("f.sql") (["-- name: Foo :exec", "A", "", "B"])).map (fun p => p.SQL)
      = Except.ok "A\n\nB"
    ∧ claimBody (["-- name: Foo :exec", "A", "", "B"]) = "A\nB"
    ∧ ("A\n\nB" : String) ≠ "A\nB" := by
  exact ⟨rfl, by decide, by decide⟩

theorem lookup_some_mem {β : Type} (v : Int) (p : β) :
    ∀ seen : List (Int × β), seen.lookup v = some p → (v, p) ∈ seen := by
  intro seen
  induction seen with
  | nil => intro h; cases h
  | cons kv rest ih =>
    obtain ⟨k, w⟩ := kv
    intro h
    rw [List.lookup_cons] at h
    rcases hbeq : (v == k) with _ | _ <;> rw [hbeq] at h
    · exact List.mem_cons_of_mem _ (ih h)
    · simp only [beq_iff_eq] at hbeq
      subst hbeq
      have hw : w = p := by injection h
      subst hw
      exact List.mem_cons_self _ _

theorem lookup_none_not_mem {β : Type} (v : Int) (p : β) :
    ∀ seen : List (Int × β), seen.lookup v = none → (v, p) ∉ seen := by
  intro seen
  induction seen with
  | nil => intro h hmem; exact absurd hmem (List.not_mem_nil _)
  | cons kv rest ih =>
    obtain ⟨k, w⟩ := kv
    intro h hmem
    rw [List.lookup_cons] at h
    rcases hbeq : (v == k) with _ | _ <;> rw [hbeq] at h
    · rcases List.mem_cons.mp hmem with heq | hmem2
      · have hvk : v = k := congrArg Prod.fst heq
        rw [hvk] at hbeq
        simp at hbeq
      · exact ih h hmem2
    · cases h

theorem loadLoop_cons_dup (seen : List (Int × String)) (acc : List SchemaMigration)
    (f : MigFile) (rest : List MigFile) (m : SchemaMigration) (p1 : String)
    (hm : parseSchemaMigration f = Except.ok m)
    (hl : seen.lookup m.Version = some p1) :
    loadLoop seen acc (f :: rest) = Except.error (dupMsg m.Version p1 f.path) := by
  unfold loadLoop
  rw [hm]
  show (match List.lookup m.Version seen with
    | some existing => Except.error (dupMsg m.Version existing f.path)
    | none => loadLoop ((m.Version, f.path) :: seen) (acc ++ [m]) rest)
      = Except.error (dupMsg m.Version p1 f.path)
  rw [hl]

theorem loadLoop_cons_fresh (seen : List (Int × String)) (acc : List SchemaMigration)
    (f : MigFile) (rest : List MigFile) (m : SchemaMigration)
    (hm : parseSchemaMigration f = Except.ok m)
    (hl : seen.lookup m.Version = none) :
    loadLoop seen acc (f :: rest)
      = loadLoop ((m.Version, f.path) :: seen) (acc ++ [m]) rest := by
  conv_lhs => unfold loadLoop
  rw [hm]
  show (match List.lookup m.Version seen with
    | some existing => Except.error (dupMsg m.Version existing f.path)
    | none => loadLoop ((m.Version, f.path) :: seen) (acc ++ [m]) rest)
      = loadLoop ((m.Version, f.path) :: seen) (acc ++ [m]) rest
  rw [hl]

theorem loadLoop_duplicate (rest : List MigFile) :
    ∀ (pre : List MigFile) (seen : List (Int × String)) (acc : List SchemaMigration),
      (∀ f ∈ pre ++ rest, ∃ m, parseSchemaMigration f = Except.ok m) →
      (∀ v p, (v, p) ∈ seen → ∃ f ∈ pre, migVer f = v ∧ f.path = p) →
      (∀ f ∈ pre, ∃ p, (migVer f, p) ∈ seen) →
      ((pre.map migVer).Nodup) →
      ¬ (((pre ++ rest).map migVer).Nodup) →
      ∃ v p1 p2 l1 f1 l2 f2 l3,
        loadLoop seen acc rest = Except.error (dupMsg v p1 p2)
        ∧ pre ++ rest = l1 ++ f1 :: l2 ++ f2 :: l3
        ∧ migVer f1 = v ∧ f1.path = p1 ∧ migVer f2 = v ∧ f2.path = p2 := by
  induction rest with
  | nil =>
    intro pre seen acc hparse hseenA hseenB hnd hdup
    rw [List.append_nil] at hdup
    exact absurd hnd hdup
  | cons f rest2 ih =>
    intro pre seen acc hparse hseenA hseenB hnd hdup
    obtain ⟨m, hm⟩ := hparse f (by simp)
    have hmv : migVer f = m.Version := by
      unfold migVer
      rw [hm]
    rcases hl : seen.lookup m.Version with _ | p1
    · have hfresh : migVer f ∉ pre.map migVer := by
        intro hmem
        rcases List.mem_map.mp hmem with ⟨f0, hf0, hf0v⟩
        obtain ⟨p, hp⟩ := hseenB f0 hf0
        rw [hf0v, hmv] at hp
        exact absurd hp (lookup_none_not_mem m.Version p seen hl)
      have hassoc : (pre ++ [f]) ++ rest2 = pre ++ f :: rest2 := by simp
      obtain ⟨v, p1, p2, l1, f1, l2, f2, l3, hres, hsplit, h1v, h1p, h2v, h2p⟩ :=
        ih (pre ++ [f]) ((m.Version, f.path) :: seen) (acc ++ [m])
          (by rw [hassoc]; exact hparse)
          (by
            intro v p hvp
            rcases List.mem_cons.mp hvp with heq | hvp2
            · refine ⟨f, by simp, ?_, ?_⟩
              · rw [hmv]
                exact (congrArg Prod.fst heq.symm)
              · exact (congrArg Prod.snd heq.symm)
            · obtain ⟨f0, hf0, hf0v, hf0p⟩ := hseenA v p hvp2
              exact ⟨f0, List.mem_append_left _ hf0, hf0v, hf0p⟩)
          (by
            intro f0 hf0
            rcases List.mem_append.mp hf0 with hf0pre | hf0f
            · obtain ⟨p, hp⟩ := hseenB f0 hf0pre
              exact ⟨p, List.mem_cons_of_mem _ hp⟩
            · have : f0 = f := by simpa using hf0f
              subst this
              exact ⟨f0.path, by rw [hmv]; exact List.mem_cons_self _ _⟩)
          (by
            rw [List.map_append]
            simp only [List.map_cons, List.map_nil]
            simp [List.nodup_append, hnd, hfresh])
          (by rw [hassoc]; exact hdup)
      refine ⟨v, p1, p2, l1, f1, l2, f2, l3, ?_, ?_, h1v, h1p, h2v, h2p⟩
      · rw [loadLoop_cons_fresh seen acc f rest2 m hm hl]
        exact hres
      · rw [← hassoc]
        exact hsplit
    · obtain ⟨f1, hf1mem, hf1v, hf1p⟩ :=
        hseenA m.Version p1 (lookup_some_mem m.Version p1 seen hl)
      obtain ⟨l1, l2b, hsplitpre⟩ := List.append_of_mem hf1mem
      refine ⟨m.Version, p1, f.path, l1, f1, l2b, f, rest2, ?_, ?_, hf1v, hf1p, hmv, rfl⟩
      · exact loadLoop_cons_dup seen acc f rest2 m p1 hm hl
      · rw [hsplitpre]

/-- C7: a migration file set in which two files claim the same leading
version number never loads.  Provided every file parses (the set is
otherwise well formed), LoadSchemaMigrations returns the hard
duplicate-version error naming an earlier claimant of the version and a
later one — and hence no migration list. -/
theorem load_duplicate_version_fails (files : List MigFile)
    (hparse : ∀ f ∈ files, ∃ m, parseSchemaMigration f = Except.ok m)
    (hdup : ∃ l1 f1 l2 f2 l3, files = l1 ++ f1 :: l2 ++ f2 :: l3 ∧ migVer f1 = migVer f2) :
    ∃ v p1 p2 l1 f1 l2 f2 l3,
      LoadSchemaMigrations files = Except.error (dupMsg v p1 p2)
      ∧ files = l1 ++ f1 :: l2 ++ f2 :: l3
      ∧ migVer f1 = v ∧ f1.path = p1 ∧ migVer f2 = v ∧ f2.path = p2 := by
  obtain ⟨l1, f1, l2, f2, l3, hsplit, hvv⟩ := hdup
  have hnodup : ¬ ((files.map migVer).Nodup) := by
    rw [hsplit]
    intro hnd
    simp only [List.map_append, List.map_cons] at hnd
    rw [List.nodup_append] at hnd
    obtain ⟨_, _, hdisj⟩ := hnd
    exact hdisj (List.mem_append_right _ (List.mem_cons_self _ _))
      (by rw [hvv]; exact List.mem_cons_self _ _)
  obtain ⟨v, p1, p2, k1, g1, k2, g2, k3, hres, hsplit2, h1v, h1p, h2v, h2p⟩ :=
    loadLoop_duplicate files [] [] []
      (by intro f hf; exact hparse f (by simpa using hf))
      (by intro v p hvp; exact absurd hvp (List.not_mem_nil _))
      (by intro f hf; exact absurd hf (List.not_mem_nil f))
      (by simp)
      (by simpa using hnodup)
  refine ⟨v, p1, p2, k1, g1, k2, g2, k3, ?_, by simpa using hsplit2, h1v, h1p, h2v, h2p⟩
  unfold LoadSchemaMigrations
  have hne : files.isEmpty = false := by
    rw [hsplit]
    cases l1 <;> rfl
  rw [hne]
  simp only [Bool.false_eq_true, if_false]
  rw [hres]
  rfl

theorem load_duplicate_version_fails_inst :
    ∃ v p1 p2 l1 f1 l2 f2 l3,
      LoadSchemaMigrations ([MigFile.mk "001_a.sql" "CREATE TABLE a;",
          MigFile.mk "001_b.sql" "CREATE TABLE b;"])
        = Except.error (dupMsg v p1 p2)
      ∧ [MigFile.mk "001_a.sql" "CREATE TABLE a;", MigFile.mk "001_b.sql" "CREATE TABLE b;"]
          = l1 ++ f1 :: l2 ++ f2 :: l3
      ∧ migVer f1 = v ∧ f1.path = p1 ∧ migVer f2 = v ∧ f2.path = p2 :=
  load_duplicate_version_fails
    ([MigFile.mk "001_a.sql" "CREATE TABLE a;", MigFile.mk "001_b.sql" "CREATE TABLE b;"])
    (by
      intro f hf
      rcases List.mem_cons.mp hf with h | hf2
      · exact ⟨SchemaMigration.mk 1 "a" "001_a.sql" "CREATE TABLE a;", by subst h; rfl⟩
      · rcases List.mem_cons.mp hf2 with h | h3
        · exact ⟨SchemaMigration.mk 1 "b" "001_b.sql" "CREATE TABLE b;", by subst h; rfl⟩
        · exact absurd h3 (List.not_mem_nil f))
    ⟨[], MigFile.mk "001_a.sql" "CREATE TABLE a;", [], MigFile.mk "001_b.sql" "CREATE TABLE b;",
      [], rfl, rfl⟩

theorem expandInput_empty (fs : List (String × FSNode)) (inp : String) (he : inp = "") :
    expandInput fs inp = [] := by
  unfold expandInput
  rw [if_pos he]

theorem expandInput_dir (fs : List (String × FSNode)) (inp : String)
    (cs : List (String × FSNode)) (he : inp ≠ "") (hl : fs.lookup inp = some (FSNode.dir cs)) :
    expandInput fs inp = walkChildren inp cs := by
  unfold expandInput
  rw [if_neg he, hl]

theorem expandInput_file_skip (fs : List (String × FSNode)) (inp c : String)
    (he : inp ≠ "") (hl : fs.lookup inp = some (FSNode.file c)) (hx : extOf inp ≠ ".sql") :
    expandInput fs inp = [] := by
  unfold expandInput
  rw [if_neg he, hl]
  exact if_pos hx

theorem expandInput_file_keep (fs : List (String × FSNode)) (inp c : String)
    (he : inp ≠ "") (hl : fs.lookup inp = some (FSNode.file c)) (hx : ¬ extOf inp ≠ ".sql") :
    expandInput fs inp = [inp] := by
  unfold expandInput
  rw [if_neg he, hl]
  exact if_neg hx

theorem resolveLoop_concat (fs : List (String × FSNode)) :
    ∀ inputs : List String,
      (∀ inp ∈ inputs, inp = "" ∨ (fs.lookup inp).isSome) →
      resolveLoop fs inputs = Except.ok (inputs.flatMap (expandInput fs)) := by
  intro inputs
  induction inputs with
  | nil => intro h; rfl
  | cons inp rest ih =>
    intro h
    have hrest := ih (fun x hx => h x (List.mem_cons_of_mem inp hx))
    rw [List.flatMap_cons]
    by_cases he : inp = ""
    · rw [expandInput_empty fs inp he]
      rw [resolveLoop, if_pos he, hrest]
      rw [List.nil_append]
    · rcases hl : fs.lookup inp with _ | node
      · rcases h inp (List.mem_cons_self _ _) with h1 | h1
        · exact absurd h1 he
        · rw [hl] at h1
          cases h1
      · cases node with
        | dir cs =>
          rw [expandInput_dir fs inp cs he hl]
          rw [resolveLoop, if_neg he, hl, hrest]
        | file c =>
          by_cases hx : extOf inp ≠ ".sql"
          · rw [expandInput_file_skip fs inp c he hl hx]
            rw [resolveLoop, if_neg he, hl, if_pos hx, hrest]
            rw [List.nil_append]
          · rw [expandInput_file_keep fs inp c he hl hx]
            rw [resolveLoop, if_neg he, hl, if_neg hx, hrest]
            rfl

/-- C9 (amended): ResolveFiles returns the plain concatenation of each
input entry's expansion, in input order and with no deduplication — a
file reachable through several entries appears once per entry — failing
only when the concatenation is empty.  The hypothesis says every
non-empty input path exists in the file system, as the code otherwise
aborts on the stat error. -/
theorem resolveFiles_concatenation (fs : List (String × FSNode)) (inputs : List String)
    (h : ∀ inp ∈ inputs, inp = "" ∨ (fs.lookup inp).isSome) :
    ResolveFiles fs inputs =
      (if (inputs.flatMap (expandInput fs)).isEmpty
       then Except.error ("no SQL files resolved")
       else Except.ok (inputs.flatMap (expandInput fs))) := by
  unfold ResolveFiles
  rw [resolveLoop_concat fs inputs h]

theorem resolveFiles_concatenation_inst :
    ResolveFiles ([("b.sql", FSNode.file "y")]) (["b.sql"]) = Except.ok (["b.sql"]) := by
  have h := resolveFiles_concatenation ([("b.sql", FSNode.file "y")]) (["b.sql"])
    (by
      intro inp hinp
      rcases List.mem_cons.mp hinp with h1 | h1
      · subst h1
        exact Or.inr rfl
      · exact absurd h1 (List.not_mem_nil inp))
  exact h.trans (by rfl)

/-- C9 counterexample: the same file passed twice as an input appears
twice in the resolver's output, so the output is not deduplicated. -/
theorem resolveFiles_duplicate_cex :
    ResolveFiles ([("a.sql", FSNode.file "x")]) (["a.sql", "a.sql"])
      = Except.ok (["a.sql", "a.sql"])
    ∧ ¬ (["a.sql", "a.sql"] : List String).Nodup
    ∧ (["a.sql", "a.sql"] : List String).count "a.sql" = 2 :=
  ⟨rfl, by decide, by decide⟩
